import Mathlib

/-!
Shallow embedding of the project-discovery and source-metrics engine of the
repository (the code-counter CLI in `server.js`): the framework catalog
(`FRAMEWORKS`), `ProjectScanner` (project discovery), and `CodeCounter`
(line counting and aggregation), together with theorems checking the
specification's claims against this embedding.

Strings from the source are modelled as Lean `String`s; file contents are
modelled as `List Char` so that the splitting and scanning loops can be
reasoned about by structural induction.
-/

namespace CodeCLI

/-! ## Basic string utilities (models of the JavaScript string/path methods) -/

/-- Whitespace characters removed by `String.prototype.trim` (the common
ASCII ones; lines produced by splitting on a newline may still carry a
carriage return, which trim removes). -/
def isWs (c : Char) : Bool :=
  c = ' ' || c = '\t' || c = '\r' || c = '\n' || c = Char.ofNat 11 || c = Char.ofNat 12

/-- Model of `line.trim()`: drop whitespace from both ends. -/
def trimChars (l : List Char) : List Char :=
  ((l.dropWhile isWs).reverse.dropWhile isWs).reverse

/-- Model of `s.startsWith(tok)` on trimmed line contents. -/
def startsWithTok (tok : List Char) (l : List Char) : Bool :=
  tok.isPrefixOf l

/-- Model of `s.includes(pat)`: `pat` occurs as a contiguous subsequence. -/
def containsSeq (pat : List Char) : List Char → Bool
  | [] => pat.isEmpty
  | c :: cs => pat.isPrefixOf (c :: cs) || containsSeq pat cs

/-- Model of `a.includes(b)` on `String`s. -/
def strIncludes (s pat : String) : Bool :=
  containsSeq pat.toList s.toList

/-- Model of `s.startsWith(pre)` on `String`s. -/
def strStartsWith (s pre : String) : Bool :=
  pre.toList.isPrefixOf s.toList

/-- Model of `s.endsWith(suf)` on `String`s. -/
def strEndsWith (s suf : String) : Bool :=
  suf.toList.isSuffixOf s.toList

/-- Model of `content.split('\n')`: splitting never yields an empty list;
the empty content yields one empty line. -/
def splitLines : List Char → List (List Char)
  | [] => [[]]
  | c :: cs =>
    if c = '\n' then [] :: splitLines cs
    else
      match splitLines cs with
      | [] => [[c]]
      | l :: ls => (c :: l) :: ls

/-- Model of `path.basename`: the part of the path after the last '/'. -/
def basename (p : String) : String :=
  String.mk ((p.toList.reverse.takeWhile fun c => !(c = '/')).reverse)

/-- Model of `path.extname`: the suffix of the basename from its last dot,
empty when the basename has no dot or only a leading dot. -/
def extname (p : String) : String :=
  let b := (basename p).toList
  let pre := b.reverse.takeWhile (fun c => !(c = '.'))
  if pre.length = b.length then ""
  else if b.length - pre.length - 1 = 0 then ""
  else String.mk ('.' :: pre.reverse)

/-- Model of `s.toLowerCase()` (ASCII letters). -/
def strToLower (s : String) : String :=
  String.mk (s.toList.map Char.toLower)

/-- Model of `path.join(dir, name)` for the non-degenerate segments this
program joins. -/
def joinPath (dir nm : String) : String :=
  dir ++ "/" ++ nm

/-! ## The framework catalog (`FRAMEWORKS`)

Each category regex in the source has the shape `/\/(a|b|...)\//` (or a
single alternative): it tests whether the path contains `/seg/` for one of
the alternatives `seg`. A category is therefore embedded as its ordered
list of alternative segment names. -/

structure Framework where
  key : String
  name : String
  icon : String
  patterns : List String
  packageIndicators : List String
  directories : List String
  categories : List (String × List String)
deriving DecidableEq, Repr

def nextjsFramework : Framework :=
  { key := "nextjs"
    name := "Next.js"
    icon := "⚡"
    patterns := ["next.config.js", "next.config.ts", "next.config.mjs"]
    packageIndicators := ["next"]
    directories := ["pages", "app"]
    categories :=
      [("pages", ["pages", "app"]),
       ("components", ["components", "ui"]),
       ("api", ["api"]),
       ("hooks", ["hooks", "composables"]),
       ("utils", ["utils", "lib", "helpers"]),
       ("styles", ["styles", "css"]),
       ("types", ["types", "interfaces"]),
       ("config", ["config", "constants"]),
       ("public", ["public"])] }

def nuxtjsFramework : Framework :=
  { key := "nuxtjs"
    name := "Nuxt.js"
    icon := "💚"
    patterns := ["nuxt.config.js", "nuxt.config.ts"]
    packageIndicators := ["nuxt", "@nuxt/"]
    directories := ["pages", "components", "layouts"]
    categories :=
      [("pages", ["pages"]),
       ("components", ["components"]),
       ("layouts", ["layouts"]),
       ("plugins", ["plugins"]),
       ("middleware", ["middleware"]),
       ("composables", ["composables"]),
       ("utils", ["utils", "lib"]),
       ("assets", ["assets"]),
       ("static", ["static", "public"]),
       ("server", ["server"])] }

def vueFramework : Framework :=
  { key := "vue"
    name := "Vue.js"
    icon := "🔥"
    patterns := ["vue.config.js", "vite.config.js", "vite.config.ts"]
    packageIndicators := ["vue", "@vue/"]
    directories := ["src"]
    categories :=
      [("components", ["components", "views"]),
       ("router", ["router"]),
       ("store", ["store", "stores"]),
       ("composables", ["composables", "hooks"]),
       ("utils", ["utils", "lib", "helpers"]),
       ("assets", ["assets"]),
       ("styles", ["styles", "css"]),
       ("types", ["types", "interfaces"])] }

def reactFramework : Framework :=
  { key := "react"
    name := "React"
    icon := "⚛️"
    patterns := ["src/App.js", "src/App.tsx", "src/index.js", "src/index.tsx"]
    packageIndicators := ["react"]
    directories := ["src"]
    categories :=
      [("components", ["components", "ui"]),
       ("pages", ["pages", "views", "screens"]),
       ("hooks", ["hooks"]),
       ("context", ["context", "providers"]),
       ("utils", ["utils", "lib", "helpers"]),
       ("assets", ["assets"]),
       ("styles", ["styles", "css"]),
       ("types", ["types", "interfaces"]),
       ("services", ["services", "api"])] }

/-- The catalog in registration (object-literal) order: detection is
first-match-wins over this order. -/
def FRAMEWORKS : List Framework :=
  [nextjsFramework, nuxtjsFramework, vueFramework, reactFramework]

/-! ## Static ignore sets and code extensions -/

def CODE_EXTENSIONS : List String :=
  [".js", ".jsx", ".ts", ".tsx", ".vue", ".svelte",
   ".html", ".css", ".scss", ".sass", ".less",
   ".json", ".graphql", ".md", ".mdx"]

def IGNORE_DIRS : List String :=
  ["node_modules", ".git", ".next", ".nuxt", "dist", "build",
   ".output", "coverage", ".nyc_output", ".vscode", ".idea",
   "__pycache__", ".pytest_cache", "logs", ".cache",
   "public", "static", "assets"]

def IGNORE_FILES : List String :=
  ["package-lock.json", "yarn.lock", "pnpm-lock.yaml",
   ".gitignore", ".env", ".env.local", ".env.example",
   "next.config.js", "nuxt.config.js", "vue.config.js",
   "tailwind.config.js", "postcss.config.js", "vite.config.js"]

/-! ## Framework detection (`ProjectScanner.detectFramework`)

The directory is abstracted by the list of its entry names (files and
subdirectories alike, as returned by `readdir`) together with the key set
of the merged `dependencies`/`devDependencies` of a parsed `package.json`
(`none` when the manifest is absent or unparsable). -/

def detectFramework (files : List String) (packageDeps : Option (List String)) :
    Option Framework :=
  FRAMEWORKS.find? fun fw =>
    let hasConfigFile := fw.patterns.any fun p => files.contains (basename p)
    let hasPackageDep :=
      match packageDeps with
      | some deps =>
        fw.packageIndicators.any fun indicator => deps.any fun dep => strIncludes dep indicator
      | none => false
    let hasTypicalDirs := fw.directories.any fun d => files.contains d
    hasConfigFile || hasPackageDep || hasTypicalDirs

/-! ## Line classification (`CodeCounter.countLines`) -/

structure LineStats where
  total : Nat
  code : Nat
  comments : Nat
  blank : Nat
deriving DecidableEq, Repr

inductive LineKind where
  | code
  | comment
  | blank
deriving DecidableEq, Repr

def jsLikeExts : List String := [".js", ".jsx", ".ts", ".tsx", ".vue"]

def cssLikeExts : List String := [".css", ".scss", ".sass", ".less"]

/-- One iteration of the `for (let line of lines)` loop body of
`countLines`: classifies a single line given the multi-line-comment state,
returning the classification and the updated state. The branch order
mirrors the source: blank check, active block-comment state, block-open
token, single-line comment tokens, else code. -/
def classifyLine (ext : String) (inMultiLineComment : Bool) (line : List Char) :
    LineKind × Bool :=
  let isJsLike := jsLikeExts.contains ext
  let isCssLike := cssLikeExts.contains ext
  let trimmedLine := trimChars line
  if trimmedLine.isEmpty then
    (LineKind.blank, inMultiLineComment)
  else if (isJsLike || isCssLike) && inMultiLineComment then
    (LineKind.comment, if containsSeq ['*', '/'] trimmedLine then false else true)
  else if (isJsLike || isCssLike) && startsWithTok ['/', '*'] trimmedLine then
    (LineKind.comment, if containsSeq ['*', '/'] trimmedLine then inMultiLineComment else true)
  else if (isJsLike && startsWithTok ['/', '/'] trimmedLine) ||
      (isCssLike && startsWithTok ['/', '*'] trimmedLine) ||
      ([".html"].contains ext && startsWithTok ['<', '!', '-', '-'] trimmedLine) then
    (LineKind.comment, inMultiLineComment)
  else
    (LineKind.code, inMultiLineComment)

/-- The counting loop of `countLines`, threading the block-comment state
through the lines and accumulating `(code, comments, blank)`. -/
def countLoop (ext : String) : List (List Char) → Bool → Nat × Nat × Nat
  | [], _ => (0, 0, 0)
  | line :: rest, inMultiLineComment =>
    let r := classifyLine ext inMultiLineComment line
    let acc := countLoop ext rest r.2
    match r.1 with
    | LineKind.code => (acc.1 + 1, acc.2.1, acc.2.2)
    | LineKind.comment => (acc.1, acc.2.1 + 1, acc.2.2)
    | LineKind.blank => (acc.1, acc.2.1, acc.2.2 + 1)

/-- `CodeCounter.countLines(content, filePath)`: split the content on
newlines, derive the lowercased extension from the file path, and count. -/
def countLines (content : List Char) (filePath : String) : LineStats :=
  let lines := splitLines content
  let ext := strToLower (extname filePath)
  let acc := countLoop ext lines false
  { total := lines.length, code := acc.1, comments := acc.2.1, blank := acc.2.2 }

/-! ## File categorization (`CodeCounter.categorizeFile`) -/

/-- Test of one category pattern `/\/(a|b|...)\//` against a path: does the
path contain `/seg/` for one of the alternative segments? -/
def patternTest (segs : List String) (filePath : String) : Bool :=
  segs.any fun seg => strIncludes filePath ("/" ++ seg ++ "/")

/-- `CodeCounter.categorizeFile(filePath)`: first category whose pattern
matches, in declaration order; `"other"` when there is no framework or no
match. The counter applies it to the path relative to the project root. -/
def categorizeFile (framework : Option Framework) (filePath : String) : String :=
  match framework with
  | none => "other"
  | some fw =>
    match fw.categories.find? (fun p => patternTest p.2 filePath) with
    | some p => p.1
    | none => "other"

/-! ## Project discovery (`ProjectScanner`)

A directory is modelled by the names of its non-directory entries, the
dependency-key set of its `package.json` (when present and parsable), and
its named subdirectories. `readdir` returns the file names together with
the subdirectory names. -/

mutual
inductive DirNode where
  | node : List String → Option (List String) → DirKids → DirNode
deriving DecidableEq
inductive DirKids where
  | nil : DirKids
  | cons : String → DirNode → DirKids → DirKids
deriving DecidableEq
end

def DirKids.toList : DirKids → List (String × DirNode)
  | DirKids.nil => []
  | DirKids.cons nm c rest => (nm, c) :: DirKids.toList rest

def DirNode.fileNames : DirNode → List String
  | DirNode.node fs _ _ => fs

def DirNode.packageDeps : DirNode → Option (List String)
  | DirNode.node _ deps _ => deps

def DirNode.kids : DirNode → DirKids
  | DirNode.node _ _ ks => ks

/-- The entry names `readdir` lists for a directory: files and
subdirectories alike. -/
def DirNode.entryNames (d : DirNode) : List String :=
  d.fileNames ++ (d.kids.toList.map Prod.fst)

structure Project where
  name : String
  path : String
  framework : Framework
deriving DecidableEq, Repr

/-- The recursion guard of `scanDirectory`: subdirectories in the ignore
set or starting with a dot are not entered. -/
def isEligibleDir (nm : String) : Bool :=
  !(IGNORE_DIRS.contains nm) && !(strStartsWith nm ".")

mutual
/-- `ProjectScanner.scanDirectory(dirPath, currentDepth, maxDepth)`: returns
immediately when `currentDepth >= maxDepth`; otherwise detects a framework
at this directory (recording a `Project` named after the directory's
basename) and then recurses into eligible subdirectories, with no depth
guard at the call site. The returned list models the `this.projects`
accumulator in visit order. -/
def scanDirectory : DirNode → String → Nat → Nat → List Project
  | DirNode.node fs deps ks, dirPath, currentDepth, maxDepth =>
    if maxDepth ≤ currentDepth then []
    else
      (match detectFramework (DirNode.node fs deps ks).entryNames deps with
       | some fw => [{ name := basename dirPath, path := dirPath, framework := fw }]
       | none => []) ++ scanKids ks dirPath currentDepth maxDepth
/-- The `for (const entry of entries)` loop of `scanDirectory` over
subdirectory entries. -/
def scanKids : DirKids → String → Nat → Nat → List Project
  | DirKids.nil, _, _, _ => []
  | DirKids.cons nm c rest, dirPath, currentDepth, maxDepth =>
    (if isEligibleDir nm then scanDirectory c (joinPath dirPath nm) (currentDepth + 1) maxDepth
     else []) ++ scanKids rest dirPath currentDepth maxDepth
end

/-- `ProjectScanner.scanForProjects(startDir, maxDepth)` with its default
`maxDepth = 3`: the walk starts at depth 0 at the start directory. -/
def scanForProjects (startDir : DirNode) (startPath : String) (maxDepth : Nat := 3) :
    List Project :=
  scanDirectory startDir startPath 0 maxDepth

/-- A directory `e` (at path `q`) is reachable from `d` (at path `p`) in
`k` recursion steps through eligible subdirectory entries. -/
inductive ReachesAt : DirNode → String → Nat → DirNode → String → Prop where
  | here (d : DirNode) (p : String) : ReachesAt d p 0 d p
  | step {d : DirNode} {p : String} {nm : String} {c : DirNode} {k : Nat}
      {e : DirNode} {q : String} :
      (nm, c) ∈ d.kids.toList → isEligibleDir nm = true →
      ReachesAt c (joinPath p nm) k e q → ReachesAt d p (k + 1) e q

/-! ## The code counter (`CodeCounter`) -/

/-- One per-extension or per-category bucket `{count, lines, codeLines}`. -/
structure Agg where
  count : Nat
  lines : Nat
  codeLines : Nat
deriving DecidableEq, Repr

/-- One entry of the largest-files ranking. -/
structure LargeFile where
  path : String
  lines : Nat
  codeLines : Nat
  size : Nat
  type : String
deriving DecidableEq, Repr

/-- The mutable `this.stats` accumulator of a `CodeCounter` instance. The
`fileTypes` and `categories` objects are modelled as association lists in
key-insertion order. -/
structure Stats where
  totalFiles : Nat
  totalLines : Nat
  totalCodeLines : Nat
  totalBlankLines : Nat
  totalCommentLines : Nat
  fileTypes : List (String × Agg)
  categories : List (String × Agg)
  largestFiles : List LargeFile
  errors : List String
deriving DecidableEq, Repr

/-- The accumulator as initialized by the `CodeCounter` constructor. -/
def initStats : Stats :=
  { totalFiles := 0, totalLines := 0, totalCodeLines := 0,
    totalBlankLines := 0, totalCommentLines := 0,
    fileTypes := [], categories := [], largestFiles := [], errors := [] }

/-- `CodeCounter.isCodeFile`. -/
def isCodeFile (filePath : String) : Bool :=
  CODE_EXTENSIONS.contains (strToLower (extname filePath))

/-- `CodeCounter.shouldIgnoreDir`. -/
def shouldIgnoreDir (dirName : String) : Bool :=
  IGNORE_DIRS.contains dirName || strStartsWith dirName "."

/-- `CodeCounter.shouldIgnoreFile`. -/
def shouldIgnoreFile (fileName : String) : Bool :=
  IGNORE_FILES.contains fileName || strStartsWith fileName "." ||
    strEndsWith fileName ".min.js"

/-- Descending order on total line count, the order produced by the
source's `sort((a, b) => b.lines - a.lines)`. -/
def byLinesDesc (a b : LargeFile) : Prop :=
  b.lines ≤ a.lines

instance : DecidableRel byLinesDesc := fun a b => Nat.decLe b.lines a.lines

instance : IsTotal LargeFile byLinesDesc :=
  ⟨fun a b => Or.symm (Nat.le_total a.lines b.lines)⟩

instance : IsTrans LargeFile byLinesDesc :=
  ⟨fun _ _ _ h1 h2 => Nat.le_trans h2 h1⟩

/-- Model of `largestFiles.sort((a, b) => b.lines - a.lines)`: a sort of
the list into descending total-line order. -/
def sortByLinesDesc (l : List LargeFile) : List LargeFile :=
  List.insertionSort byLinesDesc l

/-- Lazily-created bucket update: `if (!m[k]) m[k] = {0,0,0}` followed by
the three `+=` updates. A fresh key is appended at the end, matching
object key-insertion order. -/
def bumpBucket (m : List (String × Agg)) (k : String) (total code : Nat) :
    List (String × Agg) :=
  match m with
  | [] => [(k, { count := 1, lines := total, codeLines := code })]
  | (k', a) :: rest =>
    if k' = k then
      (k', { count := a.count + 1, lines := a.lines + total, codeLines := a.codeLines + code }) :: rest
    else
      (k', a) :: bumpBucket rest k total code

/-- `CodeCounter.processFile(filePath, relativePath)`. The file content is
`Except.ok` with the decoded text, or `Except.error` with the message of
the read failure. -/
def processFile (framework : Option Framework) (s : Stats)
    (filePath relativePath : String) (content : Except String (List Char)) : Stats :=
  match content with
  | Except.error msg =>
    { s with errors := s.errors ++ ["Error processing file " ++ filePath ++ ": " ++ msg] }
  | Except.ok text =>
    let lineStats := countLines text filePath
    let ext := strToLower (extname filePath)
    let category := categorizeFile framework relativePath
    let fileSize := text.length
    let s1 :=
      { s with
        totalFiles := s.totalFiles + 1
        totalLines := s.totalLines + lineStats.total
        totalCodeLines := s.totalCodeLines + lineStats.code
        totalBlankLines := s.totalBlankLines + lineStats.blank
        totalCommentLines := s.totalCommentLines + lineStats.comments
        fileTypes := bumpBucket s.fileTypes ext lineStats.total lineStats.code
        categories := bumpBucket s.categories category lineStats.total lineStats.code }
    let pushed := s1.largestFiles ++
      [{ path := relativePath, lines := lineStats.total, codeLines := lineStats.code,
         size := fileSize, type := ext }]
    { s1 with
      largestFiles := if 5 < pushed.length then (sortByLinesDesc pushed).take 5 else pushed }

/-- The entry list of a directory in the project tree walked by
`CodeCounter.scanDirectory`, in `readdir` order. A file carries its name
and its read result; a subdirectory carries its name and its own entries. -/
inductive FsEntries where
  | nil : FsEntries
  | consFile : String → Except String (List Char) → FsEntries → FsEntries
  | consDir : String → FsEntries → FsEntries → FsEntries

/-- `CodeCounter.scanDirectory(dirPath, basePath)`: walk the entries,
recursing into non-ignored directories and processing non-ignored code
files, threading the stats accumulator. `dirPath` is the directory's path
and `relPfx` the prefix (relative to the project root, ending in a
separator when non-empty) that turns an entry name into its path relative
to the root. -/
def ccScanDirectory (framework : Option Framework) :
    FsEntries → String → String → Stats → Stats
  | FsEntries.nil, _, _, s => s
  | FsEntries.consFile nm content rest, dirPath, relPfx, s =>
    let fullPath := joinPath dirPath nm
    let s' :=
      if !(shouldIgnoreFile nm) && isCodeFile fullPath then
        processFile framework s fullPath (relPfx ++ nm) content
      else s
    ccScanDirectory framework rest dirPath relPfx s'
  | FsEntries.consDir nm sub rest, dirPath, relPfx, s =>
    let s' :=
      if !(shouldIgnoreDir nm) then
        ccScanDirectory framework sub (joinPath dirPath nm) (relPfx ++ nm ++ "/") s
      else s
    ccScanDirectory framework rest dirPath relPfx s'

/-- The summary block of the final report. The source renders `codeRatio`
as the percentage string `((code / total) * 100).toFixed(1) + "%"`; the
float formatting is modelled by the exact percentage as a rational. -/
structure Summary where
  totalFiles : Nat
  totalLines : Nat
  totalCodeLines : Nat
  totalBlankLines : Nat
  totalCommentLines : Nat
  codeRatio : Rat
deriving DecidableEq, Repr

structure Report where
  summary : Summary
  fileTypes : List (String × Agg)
  categories : List (String × Agg)
  largestFiles : List LargeFile
  errors : List String
deriving DecidableEq, Repr

/-- `CodeCounter.generateReport()`: sorts the largest-files list
descending by line count and snapshots the accumulator. -/
def generateReport (s : Stats) : Report :=
  { summary :=
      { totalFiles := s.totalFiles
        totalLines := s.totalLines
        totalCodeLines := s.totalCodeLines
        totalBlankLines := s.totalBlankLines
        totalCommentLines := s.totalCommentLines
        codeRatio := if 0 < s.totalLines then
            (s.totalCodeLines : Rat) / (s.totalLines : Rat) * 100 else 0 }
    fileTypes := s.fileTypes
    categories := s.categories
    largestFiles := sortByLinesDesc s.largestFiles
    errors := s.errors }

/-! ## Helper lemmas -/

theorem splitLines_ne_nil (l : List Char) : splitLines l ≠ [] := by
  induction l with
  | nil => simp [splitLines]
  | cons c cs ih =>
    simp only [splitLines]
    split
    · simp
    · cases h : splitLines cs <;> simp

theorem splitLines_length (l : List Char) :
    (splitLines l).length = l.count '\n' + 1 := by
  induction l with
  | nil => rfl
  | cons c cs ih =>
    simp only [splitLines]
    by_cases h : c = '\n'
    · subst h
      simp [List.count_cons, ih]
    · rw [if_neg h]
      cases hs : splitLines cs with
      | nil => exact absurd hs (splitLines_ne_nil cs)
      | cons x xs =>
        rw [hs] at ih
        simp [List.count_cons, h, ← ih]

theorem countLoop_partition (ext : String) :
    ∀ (lines : List (List Char)) (st : Bool),
      (countLoop ext lines st).1 + (countLoop ext lines st).2.1
        + (countLoop ext lines st).2.2 = lines.length
  | [], _ => rfl
  | line :: rest, st => by
    have ih := countLoop_partition ext rest (classifyLine ext st line).2
    simp only [countLoop]
    cases h : (classifyLine ext st line).1 <;> simp [h] <;> omega

end CodeCLI

/-- Claim C4: for every text content and every file path (hence every
extension), `countLines` assigns each line to exactly one of code, comment
and blank, so code + comments + blank equals the total line count. -/
theorem classify_partitions_lines (content : List Char) (filePath : String) :
    (CodeCLI.countLines content filePath).code
      + (CodeCLI.countLines content filePath).comments
      + (CodeCLI.countLines content filePath).blank
      = (CodeCLI.countLines content filePath).total := by
  simp only [CodeCLI.countLines]
  exact CodeCLI.countLoop_partition _ (CodeCLI.splitLines content) false

/-- Claim C9: for every content and file path, the reported total equals
the number of newline characters plus one (hence is at least 1), and the
empty content classifies as one blank line: {total 1, code 0, comments 0,
blank 1}. -/
theorem countLines_total_is_newlines_succ (content : List Char) (filePath : String) :
    ((CodeCLI.countLines content filePath).total = content.count '\n' + 1
      ∧ 1 ≤ (CodeCLI.countLines content filePath).total)
    ∧ CodeCLI.countLines [] filePath
        = { total := 1, code := 0, comments := 0, blank := 1 } := by
  refine ⟨⟨?_, ?_⟩, rfl⟩
  · simp [CodeCLI.countLines, CodeCLI.splitLines_length]
  · simp [CodeCLI.countLines, CodeCLI.splitLines_length]

/-- Claim C8: for every style-sheet-like extension, a non-empty trimmed
line that starts with the block-comment-open token while no block-comment
state is active is counted as a comment line, even when the line contains
no close token. -/
theorem css_block_open_counts_as_comment (ext : String) (line : List Char)
    (hext : CodeCLI.cssLikeExts.contains ext = true)
    (hne : (CodeCLI.trimChars line).isEmpty = false)
    (hstart : CodeCLI.startsWithTok ['/', '*'] (CodeCLI.trimChars line) = true)
    (hnoclose : CodeCLI.containsSeq ['*', '/'] (CodeCLI.trimChars line) = false) :
    (CodeCLI.classifyLine ext false line).1 = CodeCLI.LineKind.comment := by
  have hmem : ext ∈ CodeCLI.cssLikeExts := by simpa using hext
  simp [CodeCLI.classifyLine, hne, hstart, hnoclose, hmem]

/-- Witness for claim C8 at extension `.css` and the closerless line
`/* open`. -/
theorem css_block_open_counts_as_comment_witness :
    (CodeCLI.cssLikeExts.contains ".css" = true
      ∧ (CodeCLI.trimChars "/* open".toList).isEmpty = false
      ∧ CodeCLI.startsWithTok ['/', '*'] (CodeCLI.trimChars "/* open".toList) = true
      ∧ CodeCLI.containsSeq ['*', '/'] (CodeCLI.trimChars "/* open".toList) = false)
    ∧ (CodeCLI.classifyLine ".css" false "/* open".toList).1 = CodeCLI.LineKind.comment :=
  ⟨⟨by decide, by decide, by decide, by decide⟩,
    css_block_open_counts_as_comment ".css" "/* open".toList
      (by decide) (by decide) (by decide) (by decide)⟩

/-- Claim C1 (counterexample): a directory whose entries are exactly
`package.json` (with dependency key `react`) and a `src` directory is NOT
detected as the React signature. -/
theorem react_scenario_not_react :
    CodeCLI.detectFramework ["package.json", "src"] (some ["react"])
      ≠ some CodeCLI.reactFramework := by decide

/-- Claim C1 (amended): that directory is detected as the Vue signature,
because Vue precedes React in catalog order and Vue's characteristic
directory `src` is present among the entries. -/
theorem react_scenario_detects_vue :
    CodeCLI.detectFramework ["package.json", "src"] (some ["react"])
      = some CodeCLI.vueFramework := by decide

/-- Claim C10: every category pattern requires a path separator
immediately before the category directory segment, so for every framework
in the catalog and every category alternative segment, a file directly
inside that top-level directory (relative path with no leading separator)
is categorized as `other`. -/
theorem top_level_category_dir_is_other :
    ∀ fw ∈ CodeCLI.FRAMEWORKS, ∀ p ∈ fw.categories, ∀ seg ∈ p.2,
      CodeCLI.categorizeFile (some fw) (seg ++ "/index.js") = "other" := by decide

namespace CodeCLI

/-- A Next.js project root used as a depth counterexample. -/
def depthLeaf : DirNode := DirNode.node ["next.config.js"] none DirKids.nil

/-- A chain `root/a/b/c` whose only matching project root `c` sits at
depth 3 from `root`; none of `root`, `a`, `b` matches any framework. -/
def depthChain : DirNode :=
  DirNode.node [] none
    (DirKids.cons "a"
      (DirNode.node [] none
        (DirKids.cons "b"
          (DirNode.node [] none (DirKids.cons "c" depthLeaf DirKids.nil))
          DirKids.nil))
      DirKids.nil)

theorem mem_scanKids_of_kid :
    ∀ (ks : DirKids) (nm : String) (c : DirNode) (x : Project) (p : String)
      (currentDepth maxDepth : Nat),
      (nm, c) ∈ ks.toList → isEligibleDir nm = true →
      x ∈ scanDirectory c (joinPath p nm) (currentDepth + 1) maxDepth →
      x ∈ scanKids ks p currentDepth maxDepth
  | DirKids.nil, nm, c, x, p, cur, md, hmem, _, _ => by
    simp [DirKids.toList] at hmem
  | DirKids.cons nm' c' rest, nm, c, x, p, cur, md, hmem, helig, hx => by
    simp only [DirKids.toList, List.mem_cons] at hmem
    rcases hmem with h | h
    · rw [Prod.ext_iff] at h
      obtain ⟨h1, h2⟩ := h
      subst h1
      subst h2
      simp only [scanKids, List.mem_append]
      exact Or.inl (by rw [if_pos helig]; exact hx)
    · simp only [scanKids, List.mem_append]
      exact Or.inr (mem_scanKids_of_kid rest nm c x p cur md h helig hx)

end CodeCLI

/-- Claim C2 (counterexample): with the default `maxDepth = 3`, a matching
project root at depth exactly 3, reached through eligible subdirectory
entries, is NOT recorded: the recursive call entered at depth 3 returns
before detection, so the scan of the chain finds no project at all. -/
theorem project_at_maxDepth_missed :
    (CodeCLI.detectFramework CodeCLI.depthLeaf.entryNames CodeCLI.depthLeaf.packageDeps
        = some CodeCLI.nextjsFramework)
    ∧ CodeCLI.scanForProjects CodeCLI.depthChain "root" = [] :=
  ⟨by decide, by decide⟩

/-- Claim C2 (amended): the scan recurses into subdirectory entries that
are not ignored and not hidden with no depth guard at the call site, but a
directory entered at depth ≥ maxDepth returns before detection; hence a
matching project root reached through eligible entries is detected and
recorded exactly when its depth is strictly below maxDepth. This theorem
proves the positive half: any matching directory at relative depth `k`
from a directory being scanned at depth `currentDepth`, with
`currentDepth + k < maxDepth`, contributes its `Project` to the result. -/
theorem reachable_below_maxDepth_detected
    {d e : CodeCLI.DirNode} {p q : String} {k : Nat} {fw : CodeCLI.Framework}
    (currentDepth maxDepth : Nat)
    (hreach : CodeCLI.ReachesAt d p k e q)
    (hdepth : currentDepth + k < maxDepth)
    (hdetect : CodeCLI.detectFramework e.entryNames e.packageDeps = some fw) :
    ({ name := CodeCLI.basename q, path := q, framework := fw } : CodeCLI.Project)
      ∈ CodeCLI.scanDirectory d p currentDepth maxDepth := by
  induction hreach generalizing currentDepth with
  | here d p =>
    cases d with
    | node fs deps ks =>
      simp only [CodeCLI.DirNode.entryNames, CodeCLI.DirNode.packageDeps,
        CodeCLI.DirNode.fileNames, CodeCLI.DirNode.kids] at hdetect
      simp only [CodeCLI.scanDirectory]
      rw [if_neg (by omega)]
      simp only [CodeCLI.DirNode.entryNames, CodeCLI.DirNode.fileNames,
        CodeCLI.DirNode.kids]
      simp [hdetect]
  | @step d1 p1 nm c k1 e1 q1 hmem helig hrest ih =>
    cases d1 with
    | node fs deps ks =>
      have hin := ih (currentDepth + 1) (by omega) hdetect
      simp only [CodeCLI.scanDirectory]
      rw [if_neg (by omega)]
      refine List.mem_append.mpr (Or.inr ?_)
      simp only [CodeCLI.DirNode.kids] at hmem
      exact CodeCLI.mem_scanKids_of_kid ks nm c _ p1 currentDepth maxDepth hmem helig hin

/-- Witness for the amended claim C2: a Next.js root one eligible level
below the start directory, scanned with the default depth bound, is
recorded. -/
theorem reachable_below_maxDepth_detected_witness :
    (CodeCLI.ReachesAt
        (CodeCLI.DirNode.node [] none (CodeCLI.DirKids.cons "sub" CodeCLI.depthLeaf CodeCLI.DirKids.nil))
        "root" 1 CodeCLI.depthLeaf (CodeCLI.joinPath "root" "sub")
      ∧ 0 + 1 < 3
      ∧ CodeCLI.detectFramework CodeCLI.depthLeaf.entryNames CodeCLI.depthLeaf.packageDeps
          = some CodeCLI.nextjsFramework)
    ∧ ({ name := CodeCLI.basename (CodeCLI.joinPath "root" "sub"),
         path := CodeCLI.joinPath "root" "sub",
         framework := CodeCLI.nextjsFramework } : CodeCLI.Project)
        ∈ CodeCLI.scanDirectory
            (CodeCLI.DirNode.node [] none (CodeCLI.DirKids.cons "sub" CodeCLI.depthLeaf CodeCLI.DirKids.nil))
            "root" 0 3 :=
  ⟨⟨CodeCLI.ReachesAt.step (by decide) (by decide)
      (CodeCLI.ReachesAt.here CodeCLI.depthLeaf (CodeCLI.joinPath "root" "sub")),
    by decide, by decide⟩,
    reachable_below_maxDepth_detected 0 3
      (CodeCLI.ReachesAt.step (by decide) (by decide)
        (CodeCLI.ReachesAt.here CodeCLI.depthLeaf (CodeCLI.joinPath "root" "sub")))
      (by decide) (by decide)⟩

namespace CodeCLI

/-- Sum of the `count` fields over the buckets of an aggregation map. -/
def sumCounts : List (String × Agg) → Nat
  | [] => 0
  | p :: rest => p.2.count + sumCounts rest

theorem sumCounts_bumpBucket :
    ∀ (m : List (String × Agg)) (k : String) (total code : Nat),
      sumCounts (bumpBucket m k total code) = sumCounts m + 1
  | [], _, _, _ => rfl
  | (k', a) :: rest, k, total, code => by
    simp only [bumpBucket]
    split
    · simp [sumCounts]
      omega
    · simp [sumCounts, sumCounts_bumpBucket rest k total code]
      omega

theorem processFile_totalFiles_add (fw : Option Framework) (s : Stats)
    (filePath relativePath : String) (content : Except String (List Char)) :
    (processFile fw s filePath relativePath content).totalFiles
      = s.totalFiles + (processFile fw initStats filePath relativePath content).totalFiles := by
  cases content <;> simp [processFile, initStats]

theorem ccScan_totalFiles_additive (fw : Option Framework) :
    ∀ (t : FsEntries) (dirPath relPfx : String) (s : Stats),
      (ccScanDirectory fw t dirPath relPfx s).totalFiles
        = s.totalFiles + (ccScanDirectory fw t dirPath relPfx initStats).totalFiles
  | FsEntries.nil, _, _, s => by simp [ccScanDirectory, initStats]
  | FsEntries.consFile nm content rest, dirPath, relPfx, s => by
    have hrest := fun x => ccScan_totalFiles_additive fw rest dirPath relPfx x
    simp only [ccScanDirectory]
    split
    · have h1 := hrest (processFile fw s (joinPath dirPath nm) (relPfx ++ nm) content)
      have h2 := hrest (processFile fw initStats (joinPath dirPath nm) (relPfx ++ nm) content)
      have h3 := processFile_totalFiles_add fw s (joinPath dirPath nm) (relPfx ++ nm) content
      omega
    · exact hrest s
  | FsEntries.consDir nm sub rest, dirPath, relPfx, s => by
    have hrest := fun x => ccScan_totalFiles_additive fw rest dirPath relPfx x
    simp only [ccScanDirectory]
    split
    · have h1 := hrest (ccScanDirectory fw sub (joinPath dirPath nm) (relPfx ++ nm ++ "/") s)
      have h2 := hrest (ccScanDirectory fw sub (joinPath dirPath nm) (relPfx ++ nm ++ "/") initStats)
      have h3 := ccScan_totalFiles_additive fw sub (joinPath dirPath nm) (relPfx ++ nm ++ "/") s
      omega
    · exact hrest s

/-- The one-file project tree used for the repeated-scan counterexample. -/
def oneFileTree : FsEntries :=
  FsEntries.consFile "a.js" (Except.ok ['x']) FsEntries.nil

theorem processFile_largest_le_five (fw : Option Framework) (s : Stats)
    (filePath relativePath : String) (content : Except String (List Char))
    (h : s.largestFiles.length ≤ 5) :
    (processFile fw s filePath relativePath content).largestFiles.length ≤ 5 := by
  cases content with
  | error msg => simpa [processFile] using h
  | ok text =>
    simp only [processFile]
    split
    · simp [List.length_take]
    · rename_i hlen
      simp only [List.length_append, List.length_singleton] at hlen ⊢
      omega

theorem ccScan_largest_le_five (fw : Option Framework) :
    ∀ (t : FsEntries) (dirPath relPfx : String) (s : Stats),
      s.largestFiles.length ≤ 5 →
      (ccScanDirectory fw t dirPath relPfx s).largestFiles.length ≤ 5
  | FsEntries.nil, _, _, _, h => h
  | FsEntries.consFile nm content rest, dirPath, relPfx, s, h => by
    simp only [ccScanDirectory]
    apply ccScan_largest_le_five fw rest
    split
    · exact processFile_largest_le_five fw s _ _ content h
    · exact h
  | FsEntries.consDir nm sub rest, dirPath, relPfx, s, h => by
    simp only [ccScanDirectory]
    apply ccScan_largest_le_five fw rest
    split
    · exact ccScan_largest_le_five fw sub _ _ s h
    · exact h

theorem processFile_bucket_sums (fw : Option Framework) (s : Stats)
    (filePath relativePath : String) (content : Except String (List Char))
    (hc : sumCounts s.categories = s.totalFiles)
    (hf : sumCounts s.fileTypes = s.totalFiles) :
    sumCounts (processFile fw s filePath relativePath content).categories
        = (processFile fw s filePath relativePath content).totalFiles
      ∧ sumCounts (processFile fw s filePath relativePath content).fileTypes
        = (processFile fw s filePath relativePath content).totalFiles := by
  cases content with
  | error msg => exact ⟨by simpa [processFile] using hc, by simpa [processFile] using hf⟩
  | ok text =>
    constructor <;> simp [processFile, sumCounts_bumpBucket, hc, hf]

theorem ccScan_bucket_sums (fw : Option Framework) :
    ∀ (t : FsEntries) (dirPath relPfx : String) (s : Stats),
      sumCounts s.categories = s.totalFiles →
      sumCounts s.fileTypes = s.totalFiles →
      sumCounts (ccScanDirectory fw t dirPath relPfx s).categories
          = (ccScanDirectory fw t dirPath relPfx s).totalFiles
        ∧ sumCounts (ccScanDirectory fw t dirPath relPfx s).fileTypes
          = (ccScanDirectory fw t dirPath relPfx s).totalFiles
  | FsEntries.nil, _, _, _, hc, hf => ⟨hc, hf⟩
  | FsEntries.consFile nm content rest, dirPath, relPfx, s, hc, hf => by
    simp only [ccScanDirectory]
    apply ccScan_bucket_sums fw rest
    all_goals split
    · exact (processFile_bucket_sums fw s _ _ content hc hf).1
    · exact hc
    · exact (processFile_bucket_sums fw s _ _ content hc hf).2
    · exact hf
  | FsEntries.consDir nm sub rest, dirPath, relPfx, s, hc, hf => by
    simp only [ccScanDirectory]
    apply ccScan_bucket_sums fw rest
    all_goals split
    · exact (ccScan_bucket_sums fw sub _ _ s hc hf).1
    · exact hc
    · exact (ccScan_bucket_sums fw sub _ _ s hc hf).2
    · exact hf

end CodeCLI

/-- Claim C3 (counterexample): a second scan with the same `CodeCounter`
accumulator does change the Report summary: on a one-file tree the second
scan reports 2 total files instead of 1. -/
theorem second_scan_same_counter_changes_summary :
    (CodeCLI.generateReport
        (CodeCLI.ccScanDirectory none CodeCLI.oneFileTree "proj" ""
          (CodeCLI.ccScanDirectory none CodeCLI.oneFileTree "proj" "" CodeCLI.initStats))).summary
      ≠ (CodeCLI.generateReport
          (CodeCLI.ccScanDirectory none CodeCLI.oneFileTree "proj" "" CodeCLI.initStats)).summary :=
  fun h => absurd (congrArg CodeCLI.Summary.totalFiles h) (by decide)

/-- Claim C3 (amended): scanning from the constructor-fresh accumulator is
a pure function of the tree, so two scans with fresh `CodeCounter`
instances yield identical summaries; but the accumulator persists on the
instance, and a further scan adds the whole tree again: the resulting
`totalFiles` is the prior value plus the tree's own file count, so a
second scan with the same instance changes the summary whenever the tree
contains at least one counted file. -/
theorem ccScan_totalFiles_accumulates (fw : Option CodeCLI.Framework)
    (t : CodeCLI.FsEntries) (dirPath relPfx : String) (s : CodeCLI.Stats) :
    (CodeCLI.ccScanDirectory fw t dirPath relPfx s).totalFiles
      = s.totalFiles
        + (CodeCLI.ccScanDirectory fw t dirPath relPfx CodeCLI.initStats).totalFiles :=
  CodeCLI.ccScan_totalFiles_additive fw t dirPath relPfx s

/-- Claim C5: after a scan whose starting accumulator respects the cap
(as the fresh accumulator does), the largest-files list has length at most
5 — the cap is re-established after every processed file — and the final
Report's largest-files list is sorted descending by total line count (and
also capped at 5). -/
theorem largest_files_capped_and_sorted (fw : Option CodeCLI.Framework)
    (t : CodeCLI.FsEntries) (dirPath relPfx filePath relativePath : String)
    (content : Except String (List Char)) (s : CodeCLI.Stats)
    (h : s.largestFiles.length ≤ 5) :
    (CodeCLI.processFile fw s filePath relativePath content).largestFiles.length ≤ 5
    ∧ (CodeCLI.ccScanDirectory fw t dirPath relPfx s).largestFiles.length ≤ 5
    ∧ List.Sorted CodeCLI.byLinesDesc
        (CodeCLI.generateReport (CodeCLI.ccScanDirectory fw t dirPath relPfx s)).largestFiles
    ∧ (CodeCLI.generateReport
        (CodeCLI.ccScanDirectory fw t dirPath relPfx s)).largestFiles.length ≤ 5 := by
  refine ⟨CodeCLI.processFile_largest_le_five fw s filePath relativePath content h,
    CodeCLI.ccScan_largest_le_five fw t dirPath relPfx s h, ?_, ?_⟩
  · simp only [CodeCLI.generateReport]
    exact List.sorted_insertionSort _ _
  · simp only [CodeCLI.generateReport, CodeCLI.sortByLinesDesc, List.length_insertionSort]
    exact CodeCLI.ccScan_largest_le_five fw t dirPath relPfx s h

/-- Witness for claim C5: scanning the one-file example tree from the
fresh accumulator. -/
theorem largest_files_capped_and_sorted_witness :
    CodeCLI.initStats.largestFiles.length ≤ 5
    ∧ ((CodeCLI.processFile none CodeCLI.initStats "proj/a.js" "a.js"
          (Except.ok ['x'])).largestFiles.length ≤ 5
      ∧ (CodeCLI.ccScanDirectory none CodeCLI.oneFileTree "proj" ""
          CodeCLI.initStats).largestFiles.length ≤ 5
      ∧ List.Sorted CodeCLI.byLinesDesc
          (CodeCLI.generateReport
            (CodeCLI.ccScanDirectory none CodeCLI.oneFileTree "proj" ""
              CodeCLI.initStats)).largestFiles
      ∧ (CodeCLI.generateReport
          (CodeCLI.ccScanDirectory none CodeCLI.oneFileTree "proj" ""
            CodeCLI.initStats)).largestFiles.length ≤ 5) :=
  ⟨by decide,
    largest_files_capped_and_sorted none CodeCLI.oneFileTree "proj" "" "proj/a.js" "a.js"
      (Except.ok ['x']) CodeCLI.initStats (by decide)⟩

/-- Claim C6: every successfully processed file contributes exactly once
to the totals, to one extension bucket and to one category bucket, so in
the final Report (of a scan started from the fresh accumulator) the file
counts of the category buckets sum to `totalFiles`, and likewise for the
extension buckets. -/
theorem bucket_counts_sum_to_totalFiles (fw : Option CodeCLI.Framework)
    (t : CodeCLI.FsEntries) (dirPath relPfx : String) :
    CodeCLI.sumCounts
        (CodeCLI.generateReport
          (CodeCLI.ccScanDirectory fw t dirPath relPfx CodeCLI.initStats)).categories
      = (CodeCLI.generateReport
          (CodeCLI.ccScanDirectory fw t dirPath relPfx CodeCLI.initStats)).summary.totalFiles
    ∧ CodeCLI.sumCounts
        (CodeCLI.generateReport
          (CodeCLI.ccScanDirectory fw t dirPath relPfx CodeCLI.initStats)).fileTypes
      = (CodeCLI.generateReport
          (CodeCLI.ccScanDirectory fw t dirPath relPfx CodeCLI.initStats)).summary.totalFiles := by
  have h := CodeCLI.ccScan_bucket_sums fw t dirPath relPfx CodeCLI.initStats rfl rfl
  simpa [CodeCLI.generateReport] using h

/-- Claim C7: a file whose read fails during counting appends exactly one
human-readable entry to the error list, leaves every aggregate (totals,
extension buckets, category buckets, largest-files list) unchanged, and
the walk continues with the remaining entries. -/
theorem unreadable_file_appends_one_error (fw : Option CodeCLI.Framework)
    (nm msg : String) (rest : CodeCLI.FsEntries) (dirPath relPfx : String)
    (s : CodeCLI.Stats)
    (hig : CodeCLI.shouldIgnoreFile nm = false)
    (hcode : CodeCLI.isCodeFile (CodeCLI.joinPath dirPath nm) = true) :
    CodeCLI.ccScanDirectory fw
        (CodeCLI.FsEntries.consFile nm (Except.error msg) rest) dirPath relPfx s
      = CodeCLI.ccScanDirectory fw rest dirPath relPfx
          { s with errors := s.errors
              ++ ["Error processing file " ++ CodeCLI.joinPath dirPath nm ++ ": " ++ msg] } := by
  simp [CodeCLI.ccScanDirectory, CodeCLI.processFile, hig, hcode]

/-- Witness for claim C7: an unreadable `a.js` at the project root. -/
theorem unreadable_file_appends_one_error_witness :
    (CodeCLI.shouldIgnoreFile "a.js" = false
      ∧ CodeCLI.isCodeFile (CodeCLI.joinPath "proj" "a.js") = true)
    ∧ CodeCLI.ccScanDirectory none
          (CodeCLI.FsEntries.consFile "a.js" (Except.error "EACCES") CodeCLI.FsEntries.nil)
          "proj" "" CodeCLI.initStats
        = CodeCLI.ccScanDirectory none CodeCLI.FsEntries.nil "proj" ""
            { CodeCLI.initStats with errors := CodeCLI.initStats.errors
                ++ ["Error processing file " ++ CodeCLI.joinPath "proj" "a.js" ++ ": " ++ "EACCES"] } :=
  ⟨⟨by decide, by decide⟩,
    unreadable_file_appends_one_error none "a.js" "EACCES" CodeCLI.FsEntries.nil "proj" ""
      CodeCLI.initStats (by decide) (by decide)⟩

/-- Witness for claim C10 at the Next.js `pages` category and the path
`pages/index.js`. -/
theorem top_level_category_dir_is_other_witness :
    (CodeCLI.nextjsFramework ∈ CodeCLI.FRAMEWORKS
      ∧ ("pages", ["pages", "app"]) ∈ CodeCLI.nextjsFramework.categories
      ∧ "pages" ∈ ["pages", "app"])
    ∧ CodeCLI.categorizeFile (some CodeCLI.nextjsFramework) ("pages" ++ "/index.js") = "other" :=
  ⟨⟨by decide, by decide, by decide⟩,
    top_level_category_dir_is_other CodeCLI.nextjsFramework (by decide)
      ("pages", ["pages", "app"]) (by decide) "pages" (by decide)⟩

